import Mathlib

/-!
Shallow embedding of `scripts/build_json.py`, the batch job that reads a
configuration file of (contribution id, descriptor URL) pairs grouped by
category, fetches and parses each descriptor, normalizes and filters the
resulting records, and writes one JSON file per accepted contribution.

Python strings are modelled as Lean `String` / `List Char`; Python dicts
(insertion-ordered, unique keys, in-place update) are modelled as
association lists with an update-in-place `dset`.  Fallible evaluation
(Python exceptions that the script does not catch) is modelled with
`Except String`.
-/

namespace BuildJson

/-- Python `str.isspace` on the ASCII whitespace characters (the descriptor
and config files in this pipeline are ASCII; the unicode extension of
Python's whitespace class is not modelled). -/
def isPySpace (c : Char) : Bool :=
  c == ' ' || c == '\t' || c == '\n' || c == '\r' || c == '\x0b' || c == '\x0c'

/-- Python `str.strip()`: drop leading and trailing whitespace. -/
def pyStrip (l : List Char) : List Char :=
  ((l.dropWhile isPySpace).reverse.dropWhile isPySpace).reverse

/-- Python `str.find(ch)`: index of the first occurrence, `none` for `-1`. -/
def findIdxOf (t : Char) : List Char → Option Nat
  | [] => none
  | c :: rest => if c == t then some 0 else (findIdxOf t rest).map (· + 1)

/-- Python `str.rfind(ch)`: index of the last occurrence, `none` for `-1`. -/
def rfindIdxOf (t : Char) : List Char → Option Nat
  | [] => none
  | c :: rest =>
    match rfindIdxOf t rest with
    | some i => some (i + 1)
    | none => if c == t then some 0 else none

/-- Python `str.split(sep)` for a one-character separator: every occurrence
splits, empty chunks are kept, and the empty string yields `[[]]`. -/
def splitOnChar (sep : Char) : List Char → List (List Char)
  | [] => [[]]
  | c :: rest =>
    if c == sep then [] :: splitOnChar sep rest
    else
      match splitOnChar sep rest with
      | [] => [[c]]
      | g :: gs => (c :: g) :: gs

/-- Fuel-driven worker for `replaceAll`; the fuel is the length of the
remaining input, so the recursion is structural. -/
def replaceAllFuel (pat rep : List Char) : Nat → List Char → List Char
  | 0, s => s
  | _ + 1, [] => []
  | n + 1, c :: rest =>
    if pat.isPrefixOf (c :: rest) then
      rep ++ replaceAllFuel pat rep n (List.drop (pat.length - 1) rest)
    else
      c :: replaceAllFuel pat rep n rest

/-- Python `str.replace(pat, rep)`: leftmost, non-overlapping replacement of
every occurrence of the (non-empty) pattern. -/
def replaceAll (pat rep : List Char) (s : List Char) : List Char :=
  if pat.isEmpty then s else replaceAllFuel pat rep s.length s

/-- Numeric value of a list of decimal digit characters. -/
def digitsVal (l : List Char) : Nat :=
  l.foldl (fun acc c => acc * 10 + (c.toNat - '0'.toNat)) 0

/-- Python `int(s)` on a string: surrounding whitespace is stripped, an
optional sign is followed by one or more decimal digits; `none` models the
`ValueError` raised otherwise.  (Underscore digit grouping and non-ASCII
digits are not modelled.) -/
def pyInt? (s : String) : Option Int :=
  match pyStrip s.data with
  | [] => none
  | '+' :: rest =>
    if !rest.isEmpty && rest.all Char.isDigit then some (Int.ofNat (digitsVal rest)) else none
  | '-' :: rest =>
    if !rest.isEmpty && rest.all Char.isDigit then some (-(Int.ofNat (digitsVal rest))) else none
  | l =>
    if l.all Char.isDigit then some (Int.ofNat (digitsVal l)) else none

/-- A Python dict with string keys and string values: an insertion-ordered
association list with unique keys. -/
abbrev Dict := List (String × String)

/-- First value stored under a key (Python `d[k]`, `none` for `KeyError`). -/
def dget? : Dict → String → Option String
  | [], _ => none
  | (k, v) :: rest, key => if k = key then some v else dget? rest key

/-- Python `k in d`. -/
def dmem (d : Dict) (k : String) : Bool :=
  (dget? d k).isSome

/-- Python `d[k] = v`: update the entry in place when the key is present,
append it otherwise. -/
def dset (d : Dict) (k v : String) : Dict :=
  if dmem d k then d.map (fun p => if p.1 = k then (k, v) else p)
  else d ++ [(k, v)]

/-- Comment stripping shared by the descriptor parser (`read_exports`,
lines 90-91) and the config parser (`get_lib_locations`, lines 163-164):
`line.strip() if line.find('#') == -1 else line[:hash]`. -/
def stripComment (line : List Char) : List Char :=
  match findIdxOf '#' line with
  | none => pyStrip line
  | some i => line.take i

/-- One line of the `read_exports` loop (lines 89-101): strip the comment,
skip empty lines and lines without `=`, otherwise store
`line[:equals].strip() = line[equals+1:].strip()` (last value wins). -/
def parse_export_line (tbl : Dict) (line : List Char) : Dict :=
  let line := stripComment line
  if line.isEmpty then tbl
  else
    match findIdxOf '=' line with
    | none => tbl
    | some i => dset tbl ⟨pyStrip (line.take i)⟩ ⟨pyStrip (line.drop (i + 1))⟩

/-- `read_exports` (lines 78-103) applied to the decoded descriptor text:
whole-text substring renaming (`authorList`→`authors`, `category`→
`categories`, `compatibleModesList`→`modes`), newline normalization, then
line-by-line `attr = value` parsing. -/
def read_exports (text : String) : Dict :=
  let t := replaceAll "authorList".data "authors".data text.data
  let t := replaceAll "category".data "categories".data t
  let t := replaceAll "compatibleModesList".data "modes".data t
  let t := replaceAll "\r\n".data "\n".data t
  let t := replaceAll "\r".data "\n".data t
  (splitOnChar '\n' t).foldl parse_export_line []

/-- The six keys checked by `missing_key` (lines 199-205). -/
def required_keys : List String :=
  ["name", "authors", "url", "categories", "sentence", "version"]

/-- `missing_key` (lines 199-205): first required key absent from the
record, `none` when all are present. -/
def missing_key (exports : Dict) : Option String :=
  required_keys.find? (fun k => !dmem exports k)

/-- The default download URL (line 249):
`prop_url[:prop_url.rfind('.')] + '.zip'`.  When the URL has no `.`,
`rfind` returns `-1` and the Python slice drops the last character. -/
def default_download_url (u : String) : String :=
  match rfindIdxOf '.' u.data with
  | some i => String.mk (u.data.take i) ++ ".zip"
  | none => String.mk (u.data.take (u.data.length - 1)) ++ ".zip"

/-- Contextual-field injection and revision defaulting (lines 254-274):
store `id`, `type`, `props`, overwrite `categories` with the config
category, default a missing/empty `minRevision` to `"0"`, force
`maxRevision = "228"` for ids on the broken list, and otherwise default a
missing/empty `maxRevision` to `"0"`. -/
def inject_fields (exports0 : Dict) (contrib_id software_type prop_url cat : String)
    (broken_ids : List String) : Dict :=
  let e1 := dset exports0 "id" contrib_id
  let e2 := dset e1 "type" software_type
  let e3 := dset e2 "props" prop_url
  let e4 := dset e3 "categories" cat
  let e5 :=
    if dget? e4 "minRevision" = none ∨ dget? e4 "minRevision" = some "" then
      dset e4 "minRevision" "0"
    else e4
  if contrib_id ∈ broken_ids then dset e5 "maxRevision" "228"
  else if dget? e5 "maxRevision" = none ∨ dget? e5 "maxRevision" = some "" then
    dset e5 "maxRevision" "0"
  else e5

/-- Download-URL derivation (lines 282-284): when no key matches the
regex `download.*` (i.e. no key starts with `download`), store the default
download URL under `download`. -/
def ensure_download (exports : Dict) (download_url : String) : Dict :=
  if (exports.filter (fun p => "download".data.isPrefixOf p.1.data)).length = 0 then
    dset exports "download" download_url
  else exports

/-- Python `int(s)` as fallible evaluation; the error payload carries the
unparseable string (`ValueError`). -/
def int_of (s : String) : Except String Int :=
  match pyInt? s with
  | some n => Except.ok n
  | none => Except.error s

/-- Python `d[k]` as fallible evaluation (`KeyError` on a missing key). -/
def dgetE (d : Dict) (k : String) : Except String String :=
  match dget? d k with
  | some v => Except.ok v
  | none => Except.error k

/-- The compatibility condition (lines 287-288), with Python's
left-to-right short-circuit evaluation made explicit:
`(int(minrev) == 0 or int(exports['maxRevision']) == 0 or int(minrev) <= int(exports['maxRevision'])) and
 (int(maxrev) == 0 or int(exports['minRevision']) == 0 or int(maxrev) >= int(exports['minRevision']))`.
An unparseable revision string surfaces as `Except.error` (an uncaught
`ValueError`). -/
def compat_check (minrev maxrev : Int) (exports : Dict) : Except String Bool :=
  let c1 : Except String Bool :=
    if minrev = 0 then Except.ok true
    else
      match dgetE exports "maxRevision" with
      | Except.error e => Except.error e
      | Except.ok sM =>
        match int_of sM with
        | Except.error e => Except.error e
        | Except.ok M => if M = 0 then Except.ok true else Except.ok (decide (minrev ≤ M))
  match c1 with
  | Except.error e => Except.error e
  | Except.ok false => Except.ok false
  | Except.ok true =>
    if maxrev = 0 then Except.ok true
    else
      match dgetE exports "minRevision" with
      | Except.error e => Except.error e
      | Except.ok sm =>
        match int_of sm with
        | Except.error e => Except.error e
        | Except.ok m => if m = 0 then Except.ok true else Except.ok (decide (maxrev ≥ m))

/-- The id-keyed accumulation table `contribs_by_id`: a Python dict from
contribution id to record. -/
abbrev Table := List (String × Dict)

/-- First record stored under an id. -/
def tlookup : Table → String → Option Dict
  | [], _ => none
  | (k, v) :: rest, key => if k = key then some v else tlookup rest key

/-- Python `contrib_id in contribs_by_id`. -/
def tmem (tbl : Table) (id : String) : Bool :=
  (tlookup tbl id).isSome

/-- Category merging on an already-accumulated record (line 294):
`contribs_by_id[contrib_id]['categories'] += "," + cat`.  Accumulated
records always carry a `categories` entry (it is injected), so the update
is a plain in-place value rewrite. -/
def append_category (d : Dict) (cat : String) : Dict :=
  d.map (fun q => if q.1 = "categories" then (q.1, q.2 ++ "," ++ cat) else q)

/-- Accumulation of an accepted record (lines 289-294): insert a new id,
or append the category to the record already stored under the id. -/
def add_contrib (tbl : Table) (contrib_id : String) (exports : Dict) (cat : String) : Table :=
  if tmem tbl contrib_id then
    tbl.map (fun p => if p.1 = contrib_id then (p.1, append_category p.2 cat) else p)
  else tbl ++ [(contrib_id, exports)]

/-- Outcome of the black-box fetch `urlopen` + UTF-8 decode: transport
failure (`IOError`), decode failure (`UnicodeDecodeError`), or the decoded
descriptor text. -/
inductive FetchResult where
  | ioError : FetchResult
  | decodeError : FetchResult
  | ok : String → FetchResult

/-- One iteration of the per-contribution loop (lines 242-302).  The first
component is the list of URLs opened (the network accesses attempted); the
second is the table after the iteration, or `Except.error` when an
exception escapes the `try`/`except IOError`/`except UnicodeDecodeError`
block (only `IOError` and `UnicodeDecodeError` are caught there). -/
def process_contrib (fetch : String → FetchResult) (broken_ids skipped_ids : List String)
    (minrev maxrev : Int) (cat : String) (contrib : String × String × String)
    (tbl : Table) : List String × Except String Table :=
  let software_type := contrib.1
  let contrib_id := contrib.2.1
  let prop_url := contrib.2.2
  if contrib_id ∈ skipped_ids then ([], Except.ok tbl)
  else
    let download_url := default_download_url prop_url
    ([prop_url],
      match fetch prop_url with
      | FetchResult.ioError => Except.ok tbl
      | FetchResult.decodeError => Except.ok tbl
      | FetchResult.ok text =>
        let exports := inject_fields (read_exports text) contrib_id software_type prop_url cat broken_ids
        match missing_key exports with
        | some _ => Except.ok tbl
        | none =>
          let exports := ensure_download exports download_url
          match compat_check minrev maxrev exports with
          | Except.error e => Except.error e
          | Except.ok true => Except.ok (add_contrib tbl contrib_id exports cat)
          | Except.ok false => Except.ok tbl)

/-- The contributions of one category, processed in order through
`process_contrib`; an uncaught exception aborts the remainder of the run. -/
def run_contribs (fetch : String → FetchResult) (broken_ids skipped_ids : List String)
    (minrev maxrev : Int) (cat : String) :
    List (String × String × String) → List String × Except String Table →
      List String × Except String Table
  | [], acc => acc
  | c :: cs, acc =>
    match acc with
    | (tr, Except.error e) => (tr, Except.error e)
    | (tr, Except.ok tbl) =>
      let step := process_contrib fetch broken_ids skipped_ids minrev maxrev cat c tbl
      run_contribs fetch broken_ids skipped_ids minrev maxrev cat cs (tr ++ step.1, step.2)

/-- The category loop of the accumulation phase, in the insertion order of
the parsed config. -/
def run_batch_from (fetch : String → FetchResult) (broken_ids skipped_ids : List String)
    (minrev maxrev : Int) :
    List (String × List (String × String × String)) →
      List String × Except String Table → List String × Except String Table
  | [], acc => acc
  | p :: ps, acc =>
    run_batch_from fetch broken_ids skipped_ids minrev maxrev ps
      (run_contribs fetch broken_ids skipped_ids minrev maxrev p.1 p.2 acc)

/-- The whole accumulation phase (lines 237-302): iterate the categories
of the parsed config in insertion order, starting from the empty table. -/
def run_batch (fetch : String → FetchResult) (broken_ids skipped_ids : List String)
    (minrev maxrev : Int) (cfg : List (String × List (String × String × String)))
    : List String × Except String Table :=
  run_batch_from fetch broken_ids skipped_ids minrev maxrev cfg ([], Except.ok [])

/-- The mapping built by the config parser: category name to ordered list
of `(software_type, contribution_id, descriptor_url)` triples. -/
abbrev CfgMap := List (String × List (String × String × String))

/-- First entry list stored under a category. -/
def clookup : CfgMap → String → Option (List (String × String × String))
  | [], _ => none
  | (k, v) :: rest, key => if k = key then some v else clookup rest key

/-- `urls_by_category[category].append(entry)` with the
`if category not in urls_by_category: urls_by_category[category] = []`
guard (lines 193-195). -/
def cfg_append (m : CfgMap) (cat : String) (e : String × String × String) : CfgMap :=
  if (clookup m cat).isSome then
    m.map (fun p => if p.1 = cat then (p.1, p.2 ++ [e]) else p)
  else m ++ [(cat, [e])]

/-- The mutable state of the `get_lib_locations` loop: the current
software_type/category context and the accumulated mapping. -/
structure CfgState where
  software_type : Option String
  category : Option String
  urls_by_category : CfgMap

/-- Console events of the config parser's error paths: the
`Ignoring contribution without type or category` message and the
`Lines for contributions must be of the form ...` message. -/
inductive CfgEvent where
  | noContext : CfgEvent
  | badLine : CfgEvent

/-- One iteration of the `get_lib_locations` loop (lines 162-195): strip
the comment, skip empty lines; a line that starts with `[` and ends with
`]` is a header — its bracket contents must split on `:` into exactly two
parts (software_type, lower-cased with all whitespace removed, and
category, trimmed) or the context is reset to `None`; any other line is a
contribution line, rejected when no context is open or when it does not
split on `\` into exactly two parts. -/
def config_step (st : CfgState) (rawline : String) : CfgState × List CfgEvent :=
  let line := stripComment rawline.data
  if line.isEmpty then (st, [])
  else if line.head? = some '[' ∧ line.getLast? = some ']' then
    let contents := (line.drop 1).dropLast
    match splitOnChar ':' contents with
    | [a, b] =>
      let sty : String := String.mk (((pyStrip a).filter (fun ch => !isPySpace ch)).map Char.toLower)
      let cat : String := String.mk (pyStrip b)
      ({ st with software_type := some sty, category := some cat }, [])
    | _ => ({ st with software_type := none, category := none }, [])
  else
    match st.software_type, st.category with
    | some sty, some cat =>
      (match splitOnChar '\\' line with
       | [a, b] =>
         ({ st with
            urls_by_category :=
              cfg_append st.urls_by_category cat (sty, String.mk (pyStrip a), String.mk (pyStrip b)) },
          [])
       | _ => (st, [CfgEvent.badLine]))
    | _, _ => (st, [CfgEvent.noContext])

/-- `get_lib_locations` (lines 153-197) over the config file's lines. -/
def get_lib_locations (lines : List String) : CfgMap :=
  (lines.foldl (fun st l => (config_step st l).1) ⟨none, none, []⟩).urls_by_category

/-- A JSON-like Python value, as produced by `format_exports`. -/
inductive PyVal where
  | str : String → PyVal
  | list : List PyVal → PyVal
  | obj : List (String × PyVal) → PyVal
  | null : PyVal

/-- A dict whose values are arbitrary Python values (the shape of a
formatted record). -/
abbrev FDict := List (String × PyVal)

/-- First value stored under a key of a formatted record. -/
def fget? : FDict → String → Option PyVal
  | [], _ => none
  | (k, v) :: rest, key => if k = key then some v else fget? rest key

/-- `d[k] = v` on a formatted record. -/
def fset (d : FDict) (k : String) (v : PyVal) : FDict :=
  if (fget? d k).isSome then d.map (fun p => if p.1 = k then (k, v) else p)
  else d ++ [(k, v)]

/-- `d.pop(k)` on a formatted record (the keys of a record are unique, so
removing every entry under the key removes exactly the one entry). -/
def fdrop (d : FDict) (k : String) : FDict :=
  d.filter (fun p => decide (p.1 ≠ k))

/-- `format_exports` (lines 105-135): wrap `authors` in a one-element
list; split a non-empty `categories` string on `,` (the per-element
`cat.strip()` of the source discards its result, so the chunks are kept
untrimmed) or set it to `None`; move `minRevision`, `maxRevision`,
`props`, `download` into a single `mode = "java"` package wrapped in a
one-element `packages` list; drop `version` and `prettyVersion`. -/
def format_exports (exports : Dict) : FDict :=
  let e : FDict := exports.map (fun p => (p.1, PyVal.str p.2))
  let e :=
    match dget? exports "authors" with
    | some a => fset e "authors" (PyVal.list [PyVal.str a])
    | none => e
  let e :=
    match dget? exports "categories" with
    | some cs =>
      if cs ≠ "" then
        fset e "categories"
          (PyVal.list ((splitOnChar ',' cs.data).map (fun l => PyVal.str (String.mk l))))
      else fset e "categories" PyVal.null
    | none => fset e "categories" PyVal.null
  let package_java : FDict :=
    ("mode", PyVal.str "java") ::
      (["minRevision", "maxRevision", "props", "download"].filterMap
        (fun k => (dget? exports k).map (fun v => (k, PyVal.str v))))
  let e := ["minRevision", "maxRevision", "props", "download"].foldl (fun acc k => fdrop acc k) e
  let e := fset e "packages" (PyVal.list [PyVal.obj package_java])
  ["version", "prettyVersion"].foldl (fun acc k => fdrop acc k) e

/-- The filename blacklist of `write_exports` (line 142). -/
def blacklist_chars : List Char :=
  ['\\', '/', ':', '*', '?', '"', '<', '>', '|', '\x00']

/-- Filename sanitization of `write_exports` (lines 143-146):
`exports['name'].strip()`, drop blacklisted characters, drop characters
with code point at most 31, replace spaces with underscores. -/
def sanitized_filename (name : String) : String :=
  let f := pyStrip name.data
  let f := f.filter (fun c => !blacklist_chars.contains c)
  let f := f.filter (fun c => decide (31 < c.toNat))
  String.mk (f.map (fun c => if c = ' ' then '_' else c))

/-- The output filename of `write_exports` (line 148): the sanitized name
plus `.json`.  A record reaching the writer always carries a string-valued
`name` (it is a required key), so the fallback branch is unreachable in a
run of the pipeline. -/
def output_filename (formatted : FDict) : String :=
  (match fget? formatted "name" with
   | some (PyVal.str s) => sanitized_filename s
   | _ => sanitized_filename "") ++ ".json"

/-- The write-out phase (lines 310-313): each accumulated record is
formatted and written to one file; the result lists the
(filename, record) pairs in table order. -/
def write_all (tbl : Table) : List (String × FDict) :=
  tbl.map (fun p =>
    let fe := format_exports p.2
    (output_filename fe, fe))

/-- The value `minRevision`/`maxRevision` ends up with after the
missing/empty defaulting of lines 263-274. -/
def defaultRev : Option String → String
  | none => "0"
  | some s => if s = "" then "0" else s

/-- The inclusion formula exactly as the spec words it (section 4.4):
`(minrev == 0 OR record.maxRevision == 0 OR minrev <= record.maxRevision) AND
 (maxrev == 0 OR record.minRevision == 0 OR maxrev >= record.minRevision)`;
stated over the already-parsed integer values of the record's revision
bounds, to be compared with the code's `compat_check`. -/
def spec_included (minrev maxrev recMin recMax : Int) : Bool :=
  (decide (minrev = 0) || decide (recMax = 0) || decide (minrev ≤ recMax)) &&
  (decide (maxrev = 0) || decide (recMin = 0) || decide (maxrev ≥ recMin))

/-- A revision field of a parsed descriptor that the defaulting step turns
into a numeric string: missing, empty, or already numeric. -/
def okRevB : Option String → Bool
  | none => true
  | some v => v == "" || (pyInt? v).isSome

theorem dget?_map_update_self {d : Dict} {k : String} (v : String) (h : dmem d k = true) :
    dget? (d.map (fun p => if p.1 = k then (k, v) else p)) k = some v := by
  induction d with
  | nil => simp [dmem, dget?] at h
  | cons hd tl ih =>
    obtain ⟨k1, v1⟩ := hd
    rw [List.map_cons]
    by_cases hk : k1 = k
    · subst hk
      rw [if_pos (show (k1, v1).1 = k1 from rfl)]
      simp [dget?]
    · rw [if_neg (show ¬(k1, v1).1 = k from hk)]
      have hmem : dmem tl k = true := by
        simpa [dmem, dget?, hk] using h
      simp [dget?, hk, ih hmem]

theorem dget?_map_update_ne {k k' : String} (d : Dict) (v : String) (h : k' ≠ k) :
    dget? (d.map (fun p => if p.1 = k then (k, v) else p)) k' = dget? d k' := by
  induction d with
  | nil => simp [dget?]
  | cons hd tl ih =>
    obtain ⟨k1, v1⟩ := hd
    rw [List.map_cons]
    by_cases hk : k1 = k
    · subst hk
      rw [if_pos (show (k1, v1).1 = k1 from rfl)]
      have h1 : k1 ≠ k' := fun hkk => h hkk.symm
      simp [dget?, h1, ih]
    · rw [if_neg (show ¬(k1, v1).1 = k from hk)]
      simp [dget?, ih]

theorem dget?_append_right {d1 : Dict} {k : String} (d2 : Dict) (h : dget? d1 k = none) :
    dget? (d1 ++ d2) k = dget? d2 k := by
  induction d1 with
  | nil => simp
  | cons hd tl ih =>
    by_cases hk : hd.1 = k
    · simp [dget?, hk] at h
    · simp [dget?, hk] at h ⊢
      exact ih h

theorem dget?_dset_self (d : Dict) (k v : String) :
    dget? (dset d k v) k = some v := by
  unfold dset
  by_cases h : dmem d k
  · simp [h, dget?_map_update_self v h]
  · have hnone : dget? d k = none := by
      cases ho : dget? d k with
      | none => rfl
      | some w => simp [dmem, ho] at h
    simp [h, dget?_append_right _ hnone, dget?]

theorem dget?_append_single_ne (d : Dict) (k v k' : String) (h : k' ≠ k) :
    dget? (d ++ [(k, v)]) k' = dget? d k' := by
  induction d with
  | nil =>
    have h2 : k ≠ k' := Ne.symm h
    simp [dget?, h2]
  | cons hd tl ih =>
    by_cases hk : hd.1 = k'
    · simp [dget?, hk]
    · simp [dget?, hk, ih]

theorem dget?_dset_ne (d : Dict) (k v k' : String) (h : k' ≠ k) :
    dget? (dset d k v) k' = dget? d k' := by
  unfold dset
  by_cases hm : dmem d k
  · simp [hm, dget?_map_update_ne d v h]
  · simp [hm, dget?_append_single_ne d k v k' h]

theorem dget?_inject_minRevision (e : Dict) (id st url cat : String) (b : List String) :
    dget? (inject_fields e id st url cat b) "minRevision" =
      some (defaultRev (dget? e "minRevision")) := by
  simp only [inject_fields]
  have hE4 : dget? (dset (dset (dset (dset e "id" id) "type" st) "props" url) "categories" cat)
      "minRevision" = dget? e "minRevision" := by
    rw [dget?_dset_ne _ "categories" cat "minRevision" (by decide),
        dget?_dset_ne _ "props" url "minRevision" (by decide),
        dget?_dset_ne _ "type" st "minRevision" (by decide),
        dget?_dset_ne _ "id" id "minRevision" (by decide)]
  by_cases hdef : dget? (dset (dset (dset (dset e "id" id) "type" st) "props" url) "categories" cat)
      "minRevision" = none ∨
      dget? (dset (dset (dset (dset e "id" id) "type" st) "props" url) "categories" cat)
      "minRevision" = some ""
  · rw [if_pos hdef]
    have hval : some "0" = some (defaultRev (dget? e "minRevision")) := by
      rw [hE4] at hdef
      rcases hdef with h | h <;> simp [defaultRev, h]
    by_cases hb : id ∈ b
    · rw [if_pos hb, dget?_dset_ne _ "maxRevision" "228" "minRevision" (by decide),
          dget?_dset_self, hval]
    · rw [if_neg hb]
      by_cases hdef2 : dget?
          (dset (dset (dset (dset (dset e "id" id) "type" st) "props" url) "categories" cat)
            "minRevision" "0") "maxRevision" = none ∨
          dget?
          (dset (dset (dset (dset (dset e "id" id) "type" st) "props" url) "categories" cat)
            "minRevision" "0") "maxRevision" = some ""
      · rw [if_pos hdef2, dget?_dset_ne _ "maxRevision" "0" "minRevision" (by decide),
            dget?_dset_self, hval]
      · rw [if_neg hdef2, dget?_dset_self, hval]
  · rw [if_neg hdef]
    have hval : dget? e "minRevision" = some (defaultRev (dget? e "minRevision")) := by
      push_neg at hdef
      rw [hE4] at hdef
      cases ho : dget? e "minRevision" with
      | none => exact absurd ho hdef.1
      | some s =>
        have hs : s ≠ "" := by
          intro hcon
          rw [hcon] at ho
          exact hdef.2 ho
        simp [defaultRev, hs]
    by_cases hb : id ∈ b
    · rw [if_pos hb, dget?_dset_ne _ "maxRevision" "228" "minRevision" (by decide), hE4]
      exact hval
    · rw [if_neg hb]
      by_cases hdef2 : dget? (dset (dset (dset (dset e "id" id) "type" st) "props" url)
            "categories" cat) "maxRevision" = none ∨
          dget? (dset (dset (dset (dset e "id" id) "type" st) "props" url)
            "categories" cat) "maxRevision" = some ""
      · rw [if_pos hdef2, dget?_dset_ne _ "maxRevision" "0" "minRevision" (by decide), hE4]
        exact hval
      · rw [if_neg hdef2, hE4]
        exact hval

theorem dget?_inject_maxRevision (e : Dict) (id st url cat : String) (b : List String) :
    dget? (inject_fields e id st url cat b) "maxRevision" =
      some (if id ∈ b then "228" else defaultRev (dget? e "maxRevision")) := by
  simp only [inject_fields]
  have hE4 : dget? (dset (dset (dset (dset e "id" id) "type" st) "props" url) "categories" cat)
      "maxRevision" = dget? e "maxRevision" := by
    rw [dget?_dset_ne _ "categories" cat "maxRevision" (by decide),
        dget?_dset_ne _ "props" url "maxRevision" (by decide),
        dget?_dset_ne _ "type" st "maxRevision" (by decide),
        dget?_dset_ne _ "id" id "maxRevision" (by decide)]
  have hfix : ∀ o : Option String, o ≠ none → o ≠ some "" →
      o = some (defaultRev o) := by
    intro o h1 h2
    cases o with
    | none => exact absurd rfl h1
    | some s =>
      have hs : s ≠ "" := by
        intro hcon
        rw [hcon] at h2
        exact h2 rfl
      simp [defaultRev, hs]
  by_cases hb : id ∈ b
  · rw [if_pos hb]
    by_cases hdef : dget? (dset (dset (dset (dset e "id" id) "type" st) "props" url)
        "categories" cat) "minRevision" = none ∨
        dget? (dset (dset (dset (dset e "id" id) "type" st) "props" url)
        "categories" cat) "minRevision" = some ""
    · rw [if_pos hdef, dget?_dset_self]
      simp [hb]
    · rw [if_neg hdef, dget?_dset_self]
      simp [hb]
  · rw [if_neg hb]
    by_cases hdef : dget? (dset (dset (dset (dset e "id" id) "type" st) "props" url)
        "categories" cat) "minRevision" = none ∨
        dget? (dset (dset (dset (dset e "id" id) "type" st) "props" url)
        "categories" cat) "minRevision" = some ""
    · rw [if_pos hdef]
      have hE5 : dget?
          (dset (dset (dset (dset (dset e "id" id) "type" st) "props" url) "categories" cat)
            "minRevision" "0") "maxRevision" = dget? e "maxRevision" := by
        rw [dget?_dset_ne _ "minRevision" "0" "maxRevision" (by decide), hE4]
      by_cases hdef2 : dget?
          (dset (dset (dset (dset (dset e "id" id) "type" st) "props" url) "categories" cat)
            "minRevision" "0") "maxRevision" = none ∨
          dget?
          (dset (dset (dset (dset (dset e "id" id) "type" st) "props" url) "categories" cat)
            "minRevision" "0") "maxRevision" = some ""
      · rw [if_pos hdef2, dget?_dset_self]
        rw [hE5] at hdef2
        rcases hdef2 with h | h <;> simp [hb, defaultRev, h]
      · rw [if_neg hdef2, hE5]
        push_neg at hdef2
        rw [hE5] at hdef2
        rw [if_neg hb]
        exact hfix _ hdef2.1 hdef2.2
    · rw [if_neg hdef]
      by_cases hdef2 : dget? (dset (dset (dset (dset e "id" id) "type" st) "props" url)
          "categories" cat) "maxRevision" = none ∨
          dget? (dset (dset (dset (dset e "id" id) "type" st) "props" url)
          "categories" cat) "maxRevision" = some ""
      · rw [if_pos hdef2, dget?_dset_self]
        rw [hE4] at hdef2
        rcases hdef2 with h | h <;> simp [hb, defaultRev, h]
      · rw [if_neg hdef2, hE4]
        push_neg at hdef2
        rw [hE4] at hdef2
        rw [if_neg hb]
        exact hfix _ hdef2.1 hdef2.2


theorem compat_check_eq_spec (minrev maxrev : Int) (e : Dict) (sm sM : String) (m M : Int)
    (hsm : dget? e "minRevision" = some sm) (hm : pyInt? sm = some m)
    (hsM : dget? e "maxRevision" = some sM) (hM : pyInt? sM = some M) :
    compat_check minrev maxrev e = Except.ok (spec_included minrev maxrev m M) := by
  by_cases h1 : minrev = 0 <;> by_cases h2 : M = 0 <;> by_cases h3 : maxrev = 0 <;>
    by_cases h4 : m = 0 <;> by_cases h5 : minrev ≤ M <;> by_cases h6 : maxrev ≥ m <;>
      simp [compat_check, dgetE, int_of, hsm, hsM, hm, hM, spec_included,
        h1, h2, h3, h4, h5, h6]

/-- C8: a contribution id on the skipped list is excluded before any fetch:
the iteration opens no URL (the trace of attempted network accesses is
empty) and leaves the table unchanged. -/
theorem claim_c8 (fetch : String → FetchResult) (broken skipped : List String)
    (minrev maxrev : Int) (cat st id url : String) (tbl : Table)
    (h : id ∈ skipped) :
    process_contrib fetch broken skipped minrev maxrev cat (st, id, url) tbl
      = ([], Except.ok tbl) := by
  simp [process_contrib, h]

/-- Witness for C8 at a concrete skipped id. -/
theorem claim_c8_witness :
    process_contrib (fun _ => FetchResult.ioError) [] ["043"] 228 0 "Sound"
      ("library", "043", "http://x/a.txt") [] = ([], Except.ok []) :=
  claim_c8 (fun _ => FetchResult.ioError) [] ["043"] 228 0 "Sound" "library" "043"
    "http://x/a.txt" [] (by decide)

/-- C5: a fetched record that, after field injection and renaming, lacks a
required key is rejected before the compatibility check: the iteration
returns the table unchanged (so the record is never accumulated, hence
never written), and no error is raised even when the revision fields are
not numeric. -/
theorem claim_c5 (fetch : String → FetchResult) (broken skipped : List String)
    (minrev maxrev : Int) (cat st id url text k : String) (tbl : Table)
    (h1 : id ∉ skipped) (h2 : fetch url = FetchResult.ok text)
    (h3 : missing_key (inject_fields (read_exports text) id st url cat broken) = some k) :
    process_contrib fetch broken skipped minrev maxrev cat (st, id, url) tbl
      = ([url], Except.ok tbl) := by
  simp [process_contrib, h1, h2, h3]

/-- Witness for C5: a descriptor with no `version` (and a non-numeric
`maxRevision`, showing the rejection happens before the compatibility
check would raise). -/
theorem claim_c5_witness :
    process_contrib (fun _ => FetchResult.ok "name=n\nauthors=a\nurl=u\nsentence=s\nmaxRevision=bad")
      [] [] 228 0 "Sound" ("library", "043", "http://x/a.txt") []
      = (["http://x/a.txt"], Except.ok []) :=
  claim_c5 (fun _ => FetchResult.ok "name=n\nauthors=a\nurl=u\nsentence=s\nmaxRevision=bad")
    [] [] 228 0 "Sound" "library" "043" "http://x/a.txt"
    "name=n\nauthors=a\nurl=u\nsentence=s\nmaxRevision=bad" "version" []
    (by decide) rfl (by decide)

/-- C4: a contribution id on the broken list always gets
`maxRevision = "228"`, whatever the descriptor said; an id not on the list
whose descriptor has a missing or empty `maxRevision` gets the default
`"0"`. -/
theorem claim_c4 (e : Dict) (id st url cat : String) (broken : List String) :
    (id ∈ broken →
      dget? (inject_fields e id st url cat broken) "maxRevision" = some "228")
    ∧ (id ∉ broken →
        (dget? e "maxRevision" = none ∨ dget? e "maxRevision" = some "") →
        dget? (inject_fields e id st url cat broken) "maxRevision" = some "0") := by
  constructor
  · intro hb
    rw [dget?_inject_maxRevision, if_pos hb]
  · intro hb hdef
    rw [dget?_inject_maxRevision, if_neg hb]
    rcases hdef with h | h <;> simp [defaultRev, h]

/-- Witness for C4: a broken id with a descriptor `maxRevision` of `"999"`
still ends at `"228"`; a non-broken id with no `maxRevision` gets `"0"`. -/
theorem claim_c4_witness :
    dget? (inject_fields [("maxRevision", "999")] "b1" "library" "u" "Sound" ["b1"])
        "maxRevision" = some "228"
    ∧ dget? (inject_fields [] "x1" "library" "u" "Sound" ["b1"]) "maxRevision" = some "0" :=
  ⟨(claim_c4 [("maxRevision", "999")] "b1" "library" "u" "Sound" ["b1"]).1 (by decide),
   (claim_c4 [] "x1" "library" "u" "Sound" ["b1"]).2 (by decide) (Or.inl rfl)⟩

/-- C2: a record that reaches the compatibility check (not skipped,
fetched, no missing key) with numeric revision strings is accumulated if
and only if the spec's inclusion formula holds; and a run-wide bound of 0
never excludes on its side (the formula degenerates to the other side's
test alone). -/
theorem claim_c2 (fetch : String → FetchResult) (broken skipped : List String)
    (minrev maxrev : Int) (cat st id url text : String) (tbl : Table)
    (e1 e2 : Dict) (sm sM : String) (m M : Int)
    (h1 : id ∉ skipped) (h2 : fetch url = FetchResult.ok text)
    (he1 : e1 = inject_fields (read_exports text) id st url cat broken)
    (h3 : missing_key e1 = none)
    (he2 : e2 = ensure_download e1 (default_download_url url))
    (hsm : dget? e2 "minRevision" = some sm) (hm : pyInt? sm = some m)
    (hsM : dget? e2 "maxRevision" = some sM) (hM : pyInt? sM = some M) :
    process_contrib fetch broken skipped minrev maxrev cat (st, id, url) tbl
      = ([url], Except.ok
          (if spec_included minrev maxrev m M then add_contrib tbl id e2 cat else tbl))
    ∧ (minrev = 0 →
        spec_included minrev maxrev m M
          = (decide (maxrev = 0) || decide (m = 0) || decide (maxrev ≥ m)))
    ∧ (maxrev = 0 →
        spec_included minrev maxrev m M
          = (decide (minrev = 0) || decide (M = 0) || decide (minrev ≤ M))) := by
  refine ⟨?_, ?_, ?_⟩
  · subst he1
    subst he2
    have hc := compat_check_eq_spec minrev maxrev
      (ensure_download (inject_fields (read_exports text) id st url cat broken)
        (default_download_url url)) sm sM m M hsm hm hsM hM
    cases hspec : spec_included minrev maxrev m M <;>
      rw [hspec] at hc <;> simp [process_contrib, h1, h2, h3, hc, hspec]
  · intro h0
    simp [spec_included, h0]
  · intro h0
    simp [spec_included, h0]

/-- Witness for C2 at a concrete accepted contribution with the default
revision bounds. -/
theorem claim_c2_witness :
    process_contrib (fun _ => FetchResult.ok "name=n\nauthors=a\nurl=u\nsentence=s\nversion=1")
      [] [] 228 0 "Sound" ("library", "043", "http://x/a.txt") []
      = (["http://x/a.txt"], Except.ok
          (if spec_included 228 0 0 0 then
            add_contrib [] "043"
              (ensure_download
                (inject_fields
                  (read_exports "name=n\nauthors=a\nurl=u\nsentence=s\nversion=1")
                  "043" "library" "http://x/a.txt" "Sound" [])
                (default_download_url "http://x/a.txt"))
              "Sound"
          else [])) :=
  (claim_c2 (fun _ => FetchResult.ok "name=n\nauthors=a\nurl=u\nsentence=s\nversion=1")
    [] [] 228 0 "Sound" "library" "043" "http://x/a.txt"
    "name=n\nauthors=a\nurl=u\nsentence=s\nversion=1" [] _ _ "0" "0" 0 0
    (by decide) rfl rfl (by decide) rfl (by decide) (by decide) (by decide) (by decide)).1



theorem rfindIdxOf_not_mem {t : Char} {l : List Char} (h : t ∉ l) : rfindIdxOf t l = none := by
  induction l with
  | nil => rfl
  | cons c rest ih =>
    have hc : ¬c = t := by
      intro hcon
      subst hcon
      exact h (List.mem_cons_self c rest)
    have hr : t ∉ rest := fun hcon => h (List.mem_cons_of_mem c hcon)
    simp [rfindIdxOf, ih hr, hc]

theorem rfindIdxOf_append_last (t : Char) (l1 l2 : List Char) (h : t ∉ l2) :
    rfindIdxOf t (l1 ++ t :: l2) = some l1.length := by
  induction l1 with
  | nil => simp [rfindIdxOf, rfindIdxOf_not_mem h]
  | cons c l1 ih => simp [rfindIdxOf, ih]

theorem take_len_append (l1 l2 : List Char) : (l1 ++ l2).take l1.length = l1 := by
  induction l1 with
  | nil => simp
  | cons c l1 ih => simp [ih]

theorem str_data_append (a b : String) : (a ++ b).data = a.data ++ b.data := by
  cases a
  cases b
  rfl

theorem default_download_url_split (a b : String) (hb : '.' ∉ b.data) :
    default_download_url (a ++ "." ++ b) = a ++ ".zip" := by
  have hdata : (a ++ "." ++ b).data = a.data ++ '.' :: b.data := by
    rw [str_data_append, str_data_append]
    simp
  have hr : rfindIdxOf '.' (a ++ "." ++ b).data = some a.data.length := by
    rw [hdata]
    exact rfindIdxOf_append_last '.' a.data b.data hb
  rw [default_download_url, hr, hdata]
  show String.mk ((a.data ++ '.' :: b.data).take a.data.length) ++ ".zip" = a ++ ".zip"
  rw [take_len_append]

/-- C6: when no key of the record matches `download*`, the stored download
URL is the descriptor URL truncated at its last `.` with `.zip` appended;
when such a key is present, the derivation step leaves the record
untouched. -/
theorem claim_c6 (e : Dict) (u a b d : String) :
    ((e.filter (fun p => "download".data.isPrefixOf p.1.data)).length = 0 →
      u = a ++ "." ++ b → '.' ∉ b.data →
      dget? (ensure_download e (default_download_url u)) "download" = some (a ++ ".zip"))
    ∧ ((e.filter (fun p => "download".data.isPrefixOf p.1.data)).length ≠ 0 →
      ensure_download e d = e) := by
  constructor
  · intro h0 hu hbdot
    rw [ensure_download, if_pos h0, dget?_dset_self, hu,
      default_download_url_split a b hbdot]
  · intro h0
    rw [ensure_download, if_neg h0]

/-- Witness for C6: a record with no `download*` key gets the derived URL;
a record with a `download` key is left unchanged. -/
theorem claim_c6_witness :
    dget? (ensure_download [("name", "n")] (default_download_url "http://x/a.txt")) "download"
        = some ("http://x/a" ++ ".zip")
    ∧ ensure_download [("download", "z")] "q" = [("download", "z")] :=
  ⟨(claim_c6 [("name", "n")] "http://x/a.txt" "http://x/a" "txt" "q").1 (by decide) rfl
      (by decide),
   (claim_c6 [("download", "z")] "http://x/a.txt" "http://x/a" "txt" "q").2 (by decide)⟩

/-- C7: for every record name the writer's filename contains no
blacklisted character, no character with code point at most 31 and no
space, and it ends in `.json`. -/
theorem claim_c7 (name : String) :
    ((sanitized_filename name ++ ".json").data.all
      (fun c => !blacklist_chars.contains c && decide (31 < c.toNat) && decide (c ≠ ' ')))
      = true
    ∧ ∃ s, sanitized_filename name ++ ".json" = s ++ ".json" := by
  constructor
  · rw [List.all_eq_true]
    intro c hc
    rw [str_data_append, List.mem_append] at hc
    rcases hc with hc | hc
    · have hc2 : c ∈ List.map (fun c => if c = ' ' then '_' else c)
          (((pyStrip name.data).filter (fun c => !blacklist_chars.contains c)).filter
            (fun c => decide (31 < c.toNat))) := hc
      rcases List.mem_map.mp hc2 with ⟨c0, hc0, hmap⟩
      have hf2 := List.mem_filter.mp hc0
      have hf1 := List.mem_filter.mp hf2.1
      by_cases hsp : c0 = ' '
      · rw [← hmap, if_pos hsp]
        decide
      · rw [← hmap, if_neg hsp]
        simp only [Bool.and_eq_true]
        exact ⟨⟨hf1.2, hf2.2⟩, by simpa using hsp⟩
    · fin_cases hc <;> decide
  · exact ⟨sanitized_filename name, rfl⟩

/-- Witness for C7 at a concrete name with spaces and blacklisted
characters. -/
theorem claim_c7_witness :
    ((sanitized_filename " My Lib: a/b?* " ++ ".json").data.all
      (fun c => !blacklist_chars.contains c && decide (31 < c.toNat) && decide (c ≠ ' ')))
      = true :=
  (claim_c7 " My Lib: a/b?* ").1



theorem findIdxOf_not_mem {t : Char} {l : List Char} (h : t ∉ l) : findIdxOf t l = none := by
  induction l with
  | nil => rfl
  | cons c rest ih =>
    have hc : ¬c = t := by
      intro hcon
      subst hcon
      exact h (List.mem_cons_self c rest)
    have hr : t ∉ rest := fun hcon => h (List.mem_cons_of_mem c hcon)
    simp [findIdxOf, hc, ih hr]

theorem findIdxOf_append_first (t : Char) (l1 l2 : List Char) (h : t ∉ l1) :
    findIdxOf t (l1 ++ t :: l2) = some l1.length := by
  induction l1 with
  | nil => simp [findIdxOf]
  | cons c l1 ih =>
    have hc : ¬c = t := by
      intro hcon
      subst hcon
      exact h (List.mem_cons_self c l1)
    have hr : t ∉ l1 := fun hcon => h (List.mem_cons_of_mem c hcon)
    simp [findIdxOf, hc, ih hr]

theorem splitOnChar_not_mem {sep : Char} {l : List Char} (h : sep ∉ l) :
    splitOnChar sep l = [l] := by
  induction l with
  | nil => rfl
  | cons c rest ih =>
    have hc : ¬c = sep := by
      intro hcon
      subst hcon
      exact h (List.mem_cons_self c rest)
    have hr : sep ∉ rest := fun hcon => h (List.mem_cons_of_mem c hcon)
    simp [splitOnChar, hc, ih hr]

theorem getLast?_cons_concat (c : Char) (l : List Char) (a : Char) :
    (c :: (l ++ [a])).getLast? = some a := by
  have h := List.getLast?_append_of_ne_nil (c :: l) (show ([a] : List Char) ≠ [] by simp)
  simpa using h

theorem mem_of_getLast?_eq {l : List Char} {a : Char} (h : l.getLast? = some a) : a ∈ l := by
  induction l with
  | nil => simp [List.getLast?] at h
  | cons c rest ih =>
    cases rest with
    | nil =>
      simp [List.getLast?] at h
      simp [h]
    | cons d rest2 =>
      rw [List.getLast?_cons_cons] at h
      exact List.mem_cons_of_mem c (ih h)

/-- C9: a well-formed `[type : category]` header followed by whitespace and
then a `#` comment does not open a new category context: comment removal
keeps the trailing whitespace, the remaining line no longer ends in `]`,
and the line falls through to the contribution branch, where it is logged
(as a malformed contribution line when a context is open, as a
no-context line otherwise) and the state is left unchanged. -/
theorem claim_c9 (st : CfgState) (t c w r : String)
    (hw : w ≠ "")
    (hws : ∀ ch ∈ w.data, isPySpace ch = true)
    (hpre : ∀ ch ∈ ("[" ++ t ++ ":" ++ c ++ "]" ++ w).data, ch ≠ '#' ∧ ch ≠ '\\') :
    config_step st ("[" ++ t ++ ":" ++ c ++ "]" ++ w ++ "#" ++ r)
      = (st, [if st.software_type = none ∨ st.category = none then CfgEvent.noContext
              else CfgEvent.badLine]) := by
  have hwdata : w.data ≠ [] := by
    intro hd
    exact hw (String.ext (by rw [hd]))
  set pre : String := "[" ++ t ++ ":" ++ c ++ "]" ++ w with hpredef
  have hdata : (pre ++ "#" ++ r).data = pre.data ++ '#' :: r.data := by
    rw [str_data_append, str_data_append]
    simp
  have hnohash : '#' ∉ pre.data := fun hmem => (hpre '#' hmem).1 rfl
  have hnobs : '\\' ∉ pre.data := fun hmem => (hpre '\\' hmem).2 rfl
  have hfind := findIdxOf_append_first '#' pre.data r.data hnohash
  have hstrip : stripComment (pre ++ "#" ++ r).data = pre.data := by
    simp only [stripComment, hdata, hfind]
    exact take_len_append pre.data ('#' :: r.data)
  have hprelist : pre.data = ("[" ++ t ++ ":" ++ c ++ "]").data ++ w.data := by
    rw [hpredef, str_data_append]
  have hflat : pre.data = '[' :: (t.data ++ ':' :: (c.data ++ ']' :: w.data)) := by
    rw [hpredef]
    simp [str_data_append]
  have hempty : ¬(pre.data.isEmpty = true) := by
    rw [hflat]
    simp
  have hlastw : pre.data.getLast? = w.data.getLast? := by
    rw [hprelist]
    exact List.getLast?_append_of_ne_nil _ hwdata
  obtain ⟨x, hx⟩ : ∃ x, w.data.getLast? = some x := by
    cases hd : w.data with
    | nil => exact absurd hd hwdata
    | cons a as => exact ⟨(a :: as).getLast (by simp), List.getLast?_eq_getLast (a :: as) (by simp)⟩
  have hxmem : x ∈ w.data := mem_of_getLast?_eq hx
  have hxne : x ≠ ']' := by
    intro hcon
    subst hcon
    exact absurd (hws ']' hxmem) (by decide)
  have hcond : ¬(pre.data.head? = some '[' ∧ pre.data.getLast? = some ']') := by
    rintro ⟨h1, h2⟩
    rw [hlastw, hx] at h2
    exact hxne (Option.some.inj h2)
  have hsplit : splitOnChar '\\' pre.data = [pre.data] := splitOnChar_not_mem hnobs
  simp only [config_step, hstrip]
  rw [if_neg hempty, if_neg hcond]
  obtain ⟨sty, cat0, urls⟩ := st
  cases sty with
  | none => cases cat0 <;> simp
  | some v =>
    cases cat0 with
    | none => simp
    | some v2 =>
      rw [hsplit]
      simp

/-- Witness for C9: the header `[Library : Sound]` followed by a space and
a comment, processed with a context already open, leaves the state
unchanged and logs the malformed-contribution message. -/
theorem claim_c9_witness :
    config_step ⟨some "library", some "Sound", []⟩
        ("[" ++ "Library " ++ ":" ++ " Sound" ++ "]" ++ " " ++ "#" ++ " note")
      = (⟨some "library", some "Sound", []⟩, [CfgEvent.badLine]) :=
  claim_c9 ⟨some "library", some "Sound", []⟩ "Library " " Sound" " " " note"
    (by decide) (by decide) (by decide)

/-- C10: a bracketed line whose contents do not split on `:` into exactly
two parts resets the context to `None` (keeping the accumulated mapping),
and from a reset context every non-header contribution line is logged
with the no-context message and ignored rather than attributed to the
previously open category. -/
theorem claim_c10 :
    (∀ (st : CfgState) (raw : String) (mid : List Char),
      ('#' ∉ raw.data) →
      pyStrip raw.data = '[' :: (mid ++ [']']) →
      (splitOnChar ':' mid).length ≠ 2 →
      config_step st raw
        = ({ software_type := none, category := none,
             urls_by_category := st.urls_by_category }, []))
    ∧ (∀ (st : CfgState) (raw : String),
        st.software_type = none ∨ st.category = none →
        ¬(stripComment raw.data).isEmpty = true →
        ¬((stripComment raw.data).head? = some '[' ∧
          (stripComment raw.data).getLast? = some ']') →
        config_step st raw = (st, [CfgEvent.noContext])) := by
  constructor
  · intro st raw mid hnohash hshape hlen
    have hfind : findIdxOf '#' raw.data = none := findIdxOf_not_mem hnohash
    have hstrip : stripComment raw.data = '[' :: (mid ++ [']']) := by
      simp only [stripComment, hfind]
      exact hshape
    have hempty : ¬(('[' :: (mid ++ [']'])).isEmpty = true) := by simp
    have hcond : ('[' :: (mid ++ [']'])).head? = some '[' ∧
        ('[' :: (mid ++ [']'])).getLast? = some ']' := by
      exact ⟨rfl, getLast?_cons_concat '[' mid ']'⟩
    have hcont : (('[' :: (mid ++ [']'])).drop 1).dropLast = mid := by simp
    simp only [config_step, hstrip]
    rw [if_neg hempty, if_pos hcond, hcont]
    rcases hsp : splitOnChar ':' mid with _ | ⟨a, rest⟩
    · obtain ⟨sty, cat0, urls⟩ := st
      simp
    · rcases rest with _ | ⟨b, rest2⟩
      · obtain ⟨sty, cat0, urls⟩ := st
        simp
      · rcases rest2 with _ | ⟨c3, rest3⟩
        · refine absurd ?_ hlen
          rw [hsp]
          rfl
        · obtain ⟨sty, cat0, urls⟩ := st
          simp
  · intro st raw hctx hne hcond
    simp only [config_step]
    rw [if_neg hne, if_neg hcond]
    obtain ⟨sty, cat0, urls⟩ := st
    rcases hctx with h | h
    · simp at h
      subst h
      cases cat0 <;> simp
    · simp at h
      subst h
      cases sty <;> simp

/-- Witness for C10: the malformed header `[oops]` resets an open context;
a contribution line under a reset context is ignored with the no-context
message. -/
theorem claim_c10_witness :
    config_step ⟨some "library", some "Sound", []⟩ "[oops]" = (⟨none, none, []⟩, [])
    ∧ config_step ⟨none, none, []⟩ "043 \\ http://x" = (⟨none, none, []⟩, [CfgEvent.noContext]) :=
  ⟨claim_c10.1 ⟨some "library", some "Sound", []⟩ "[oops]" "oops".data (by decide) (by decide)
      (by decide),
   claim_c10.2 ⟨none, none, []⟩ "043 \\ http://x" (Or.inl rfl) (by decide) (by decide)⟩



theorem dget?_ensure_download_ne (e : Dict) (d k : String) (hk : k ≠ "download") :
    dget? (ensure_download e d) k = dget? e k := by
  unfold ensure_download
  by_cases h0 : (e.filter (fun p => "download".data.isPrefixOf p.1.data)).length = 0
  · rw [if_pos h0, dget?_dset_ne e "download" d k hk]
  · rw [if_neg h0]

theorem pyInt?_defaultRev_isSome {o : Option String} (h : okRevB o = true) :
    (pyInt? (defaultRev o)).isSome = true := by
  cases o with
  | none => decide
  | some v =>
    by_cases hv : v = ""
    · subst hv
      decide
    · have hd : defaultRev (some v) = v := by simp [defaultRev, hv]
      rw [hd]
      have hbeq : (v == "") = false := by
        simpa using hv
      simpa [okRevB, hbeq] using h

theorem compat_check_total (minrev maxrev : Int) (e : Dict) (sm sM : String)
    (hsm : dget? e "minRevision" = some sm) (hm : (pyInt? sm).isSome = true)
    (hsM : dget? e "maxRevision" = some sM) (hM : (pyInt? sM).isSome = true) :
    ∃ b, compat_check minrev maxrev e = Except.ok b := by
  obtain ⟨m, hm2⟩ := Option.isSome_iff_exists.mp hm
  obtain ⟨M, hM2⟩ := Option.isSome_iff_exists.mp hM
  exact ⟨spec_included minrev maxrev m M,
    compat_check_eq_spec minrev maxrev e sm sM m M hsm hm2 hsM hM2⟩

theorem process_contrib_total (fetch : String → FetchResult) (broken skipped : List String)
    (minrev maxrev : Int) (cat : String) (contrib : String × String × String) (tbl : Table)
    (hgood : ∀ text, fetch contrib.2.2 = FetchResult.ok text →
      okRevB (dget? (read_exports text) "minRevision") = true ∧
      okRevB (dget? (read_exports text) "maxRevision") = true) :
    ∃ tbl', (process_contrib fetch broken skipped minrev maxrev cat contrib tbl).2
      = Except.ok tbl' := by
  by_cases hskip : contrib.2.1 ∈ skipped
  · exact ⟨tbl, by simp [process_contrib, hskip]⟩
  · cases hf : fetch contrib.2.2 with
    | ioError => exact ⟨tbl, by simp [process_contrib, hskip, hf]⟩
    | decodeError => exact ⟨tbl, by simp [process_contrib, hskip, hf]⟩
    | ok text =>
      obtain ⟨hmin, hmax⟩ := hgood text hf
      cases hmk : missing_key (inject_fields (read_exports text) contrib.2.1 contrib.1
          contrib.2.2 cat broken) with
      | some k => exact ⟨tbl, by simp [process_contrib, hskip, hf, hmk]⟩
      | none =>
        have hsm : dget? (ensure_download
            (inject_fields (read_exports text) contrib.2.1 contrib.1 contrib.2.2 cat broken)
            (default_download_url contrib.2.2)) "minRevision"
            = some (defaultRev (dget? (read_exports text) "minRevision")) := by
          rw [dget?_ensure_download_ne _ _ _ (by decide), dget?_inject_minRevision]
        have hsM : dget? (ensure_download
            (inject_fields (read_exports text) contrib.2.1 contrib.1 contrib.2.2 cat broken)
            (default_download_url contrib.2.2)) "maxRevision"
            = some (if contrib.2.1 ∈ broken then "228"
                else defaultRev (dget? (read_exports text) "maxRevision")) := by
          rw [dget?_ensure_download_ne _ _ _ (by decide), dget?_inject_maxRevision]
        have hm : (pyInt? (defaultRev (dget? (read_exports text) "minRevision"))).isSome
            = true := pyInt?_defaultRev_isSome hmin
        have hM : (pyInt? (if contrib.2.1 ∈ broken then "228"
            else defaultRev (dget? (read_exports text) "maxRevision"))).isSome = true := by
          by_cases hb : contrib.2.1 ∈ broken
          · simp [hb]
            decide
          · simp only [if_neg hb]
            exact pyInt?_defaultRev_isSome hmax
        obtain ⟨b, hb⟩ := compat_check_total minrev maxrev _ _ _ hsm hm hsM hM
        cases b with
        | true =>
          exact ⟨add_contrib tbl contrib.2.1
            (ensure_download
              (inject_fields (read_exports text) contrib.2.1 contrib.1 contrib.2.2 cat broken)
              (default_download_url contrib.2.2)) cat,
            by simp [process_contrib, hskip, hf, hmk, hb]⟩
        | false => exact ⟨tbl, by simp [process_contrib, hskip, hf, hmk, hb]⟩



theorem run_contribs_total (fetch : String → FetchResult) (broken skipped : List String)
    (minrev maxrev : Int) (cat : String)
    (hgood : ∀ url text, fetch url = FetchResult.ok text →
      okRevB (dget? (read_exports text) "minRevision") = true ∧
      okRevB (dget? (read_exports text) "maxRevision") = true)
    (cs : List (String × String × String)) :
    ∀ acc : List String × Except String Table, (∃ tbl, acc.2 = Except.ok tbl) →
      ∃ tbl, (run_contribs fetch broken skipped minrev maxrev cat cs acc).2
        = Except.ok tbl := by
  induction cs with
  | nil =>
    intro acc h
    exact h
  | cons c cs ih =>
    intro acc h
    obtain ⟨tbl0, h0⟩ := h
    obtain ⟨tr, r⟩ := acc
    cases r with
    | error e => exact absurd h0 (by simp)
    | ok tbl =>
      obtain ⟨tbl1, h1⟩ := process_contrib_total fetch broken skipped minrev maxrev cat c tbl
        (fun text hf => hgood c.2.2 text hf)
      exact ih _ ⟨tbl1, h1⟩

theorem run_batch_from_total (fetch : String → FetchResult) (broken skipped : List String)
    (minrev maxrev : Int)
    (hgood : ∀ url text, fetch url = FetchResult.ok text →
      okRevB (dget? (read_exports text) "minRevision") = true ∧
      okRevB (dget? (read_exports text) "maxRevision") = true)
    (cfg : List (String × List (String × String × String))) :
    ∀ acc : List String × Except String Table, (∃ tbl, acc.2 = Except.ok tbl) →
      ∃ tbl, (run_batch_from fetch broken skipped minrev maxrev cfg acc).2
        = Except.ok tbl := by
  induction cfg with
  | nil =>
    intro acc h
    exact h
  | cons p ps ih =>
    intro acc h
    exact ih _ (run_contribs_total fetch broken skipped minrev maxrev p.1 hgood p.2 acc h)

/-- C1 (amended): the per-contribution boundary contains transport
failures, decode failures and missing required fields — and, provided
every fetched descriptor's `minRevision`/`maxRevision` values are numeric
or empty/missing, the whole batch completes and each accumulated record
is written out.  (A non-numeric revision value, by contrast, raises an
uncaught error: see the counterexample.) -/
theorem claim_c1_amended (fetch : String → FetchResult) (broken skipped : List String)
    (minrev maxrev : Int) (cfg : List (String × List (String × String × String)))
    (hgood : ∀ url text, fetch url = FetchResult.ok text →
      okRevB (dget? (read_exports text) "minRevision") = true ∧
      okRevB (dget? (read_exports text) "maxRevision") = true) :
    ∃ tbl, (run_batch fetch broken skipped minrev maxrev cfg).2 = Except.ok tbl
      ∧ (write_all tbl).length = tbl.length := by
  obtain ⟨tbl, h⟩ := run_batch_from_total fetch broken skipped minrev maxrev hgood cfg
    ([], Except.ok []) ⟨[], rfl⟩
  exact ⟨tbl, h, by simp [write_all]⟩

/-- Witness for the amended C1: a run over one category whose descriptor
carries numeric-free defaults completes. -/
theorem claim_c1_witness :
    ∃ tbl, (run_batch (fun _ => FetchResult.ok "name=n\nauthors=a\nurl=u\nsentence=s\nversion=1")
        [] [] 228 0 [("Sound", [("library", "043", "http://x/a.txt")])]).2 = Except.ok tbl
      ∧ (write_all tbl).length = tbl.length :=
  claim_c1_amended (fun _ => FetchResult.ok "name=n\nauthors=a\nurl=u\nsentence=s\nversion=1")
    [] [] 228 0 [("Sound", [("library", "043", "http://x/a.txt")])]
    (by
      intro url text h
      cases h
      exact ⟨by decide, by decide⟩)

/-- Counterexample to C1 as stated: a descriptor whose `maxRevision` is
the non-numeric string `oops` (with every required key present) makes the
compatibility check's `int()` call raise an uncaught `ValueError`, so the
batch aborts instead of completing. -/
theorem claim_c1_counterexample :
    (run_batch
      (fun _ => FetchResult.ok
        "name=n\nauthors=a\nurl=u\nsentence=s\nversion=1\nmaxRevision=oops")
      [] [] 228 0 [("Sound", [("library", "043", "http://x/a.txt")])]).2
    = Except.error "oops" := by
  rfl



theorem tlookup_eq_none_iff (tbl : Table) (id : String) :
    tlookup tbl id = none ↔ id ∉ tbl.map Prod.fst := by
  induction tbl with
  | nil => simp [tlookup]
  | cons p rest ih =>
    obtain ⟨k, v⟩ := p
    by_cases hk : k = id
    · subst hk
      simp [tlookup]
    · have hk2 : ¬(id = k) := fun hh => hk hh.symm
      simp [tlookup, hk, hk2, ih]

theorem map_fst_update (tbl : Table) (id cat : String) :
    (tbl.map (fun p => if p.1 = id then (p.1, append_category p.2 cat) else p)).map Prod.fst
      = tbl.map Prod.fst := by
  induction tbl with
  | nil => rfl
  | cons p rest ih =>
    obtain ⟨k, v⟩ := p
    rw [List.map_cons]
    by_cases hk : k = id
    · rw [if_pos (show ((k, v).1 = id) from hk)]
      simp [ih]
    · rw [if_neg (show ¬((k, v).1 = id) from hk)]
      simp [ih]

theorem tlookup_update_self (tbl : Table) (id cat : String) :
    tlookup (tbl.map (fun p => if p.1 = id then (p.1, append_category p.2 cat) else p)) id
      = (tlookup tbl id).map (fun d => append_category d cat) := by
  induction tbl with
  | nil => rfl
  | cons p rest ih =>
    obtain ⟨k, v⟩ := p
    rw [List.map_cons]
    by_cases hk : k = id
    · rw [if_pos (show ((k, v).1 = id) from hk)]
      simp [tlookup, hk]
    · rw [if_neg (show ¬((k, v).1 = id) from hk)]
      simp [tlookup, hk, ih]

theorem dget?_append_category (d : Dict) (cat : String) :
    dget? (append_category d cat) "categories"
      = (dget? d "categories").map (fun v => v ++ "," ++ cat) := by
  unfold append_category
  induction d with
  | nil => rfl
  | cons p rest ih =>
    obtain ⟨k, v⟩ := p
    rw [List.map_cons]
    by_cases hk : k = "categories"
    · rw [if_pos (show ((k, v).1 = "categories") from hk)]
      simp [dget?, hk]
    · rw [if_neg (show ¬((k, v).1 = "categories") from hk)]
      simp [dget?, hk, ih]

theorem add_contrib_nodup (tbl : Table) (id : String) (e : Dict) (cat : String)
    (h : (tbl.map Prod.fst).Nodup) :
    ((add_contrib tbl id e cat).map Prod.fst).Nodup := by
  unfold add_contrib
  by_cases hm : tmem tbl id = true
  · rw [if_pos hm, map_fst_update]
    exact h
  · rw [if_neg hm, List.map_append]
    refine List.Nodup.append h (by simp) ?_
    intro a ha hb
    simp at hb
    have hnone : tlookup tbl id = none := by
      unfold tmem at hm
      cases ho : tlookup tbl id with
      | none => rfl
      | some w =>
        rw [ho] at hm
        simp at hm
    rw [hb] at ha
    exact (tlookup_eq_none_iff tbl id).mp hnone ha

theorem process_contrib_ok_shape (fetch : String → FetchResult) (broken skipped : List String)
    (minrev maxrev : Int) (cat : String) (contrib : String × String × String)
    (tbl : Table) (tbl' : Table)
    (h : (process_contrib fetch broken skipped minrev maxrev cat contrib tbl).2
      = Except.ok tbl') :
    tbl' = tbl ∨ ∃ e, tbl' = add_contrib tbl contrib.2.1 e cat := by
  by_cases hskip : contrib.2.1 ∈ skipped
  · left
    simp [process_contrib, hskip] at h
    exact h.symm
  · cases hf : fetch contrib.2.2 with
    | ioError =>
      left
      simp [process_contrib, hskip, hf] at h
      exact h.symm
    | decodeError =>
      left
      simp [process_contrib, hskip, hf] at h
      exact h.symm
    | ok text =>
      cases hmk : missing_key (inject_fields (read_exports text) contrib.2.1 contrib.1
          contrib.2.2 cat broken) with
      | some k =>
        left
        simp [process_contrib, hskip, hf, hmk] at h
        exact h.symm
      | none =>
        cases hcc : compat_check minrev maxrev
            (ensure_download
              (inject_fields (read_exports text) contrib.2.1 contrib.1 contrib.2.2 cat broken)
              (default_download_url contrib.2.2)) with
        | error e2 =>
          simp [process_contrib, hskip, hf, hmk, hcc] at h
        | ok b =>
          cases b with
          | true =>
            right
            simp [process_contrib, hskip, hf, hmk, hcc] at h
            exact ⟨_, h.symm⟩
          | false =>
            left
            simp [process_contrib, hskip, hf, hmk, hcc] at h
            exact h.symm

theorem run_contribs_nodup (fetch : String → FetchResult) (broken skipped : List String)
    (minrev maxrev : Int) (cat : String) (cs : List (String × String × String)) :
    ∀ acc : List String × Except String Table,
      (∀ tbl0, acc.2 = Except.ok tbl0 → (tbl0.map Prod.fst).Nodup) →
      ∀ tbl, (run_contribs fetch broken skipped minrev maxrev cat cs acc).2 = Except.ok tbl →
        (tbl.map Prod.fst).Nodup := by
  induction cs with
  | nil =>
    intro acc hacc tbl h
    exact hacc tbl h
  | cons c cs ih =>
    intro acc hacc tbl h
    obtain ⟨tr, r⟩ := acc
    cases r with
    | error e =>
      simp [run_contribs] at h
    | ok tbl0 =>
      refine ih (tr ++ (process_contrib fetch broken skipped minrev maxrev cat c tbl0).1,
        (process_contrib fetch broken skipped minrev maxrev cat c tbl0).2) ?_ tbl h
      intro tbl1 h1
      rcases process_contrib_ok_shape fetch broken skipped minrev maxrev cat c tbl0 tbl1 h1
        with hsh | ⟨e2, hsh⟩
      · rw [hsh]
        exact hacc tbl0 rfl
      · rw [hsh]
        exact add_contrib_nodup tbl0 c.2.1 e2 cat (hacc tbl0 rfl)

theorem run_batch_from_nodup (fetch : String → FetchResult) (broken skipped : List String)
    (minrev maxrev : Int) (cfg : List (String × List (String × String × String))) :
    ∀ acc : List String × Except String Table,
      (∀ tbl0, acc.2 = Except.ok tbl0 → (tbl0.map Prod.fst).Nodup) →
      ∀ tbl, (run_batch_from fetch broken skipped minrev maxrev cfg acc).2 = Except.ok tbl →
        (tbl.map Prod.fst).Nodup := by
  induction cfg with
  | nil =>
    intro acc hacc tbl h
    exact hacc tbl h
  | cons p ps ih =>
    intro acc hacc tbl h
    refine ih _ ?_ tbl h
    intro tbl1 h1
    exact run_contribs_nodup fetch broken skipped minrev maxrev p.1 p.2 acc hacc tbl1 h1

/-- C3: across any run the accumulation table holds at most one record
per contribution id (its keys are distinct); an accepted occurrence of an
id already in the table does not add a row — it rewrites the stored
record's `categories` to the comma-join of the old value and the new
config category, on the raw string, before the normalizer's
list-splitting step; and the writer emits exactly one file per table
row. -/
theorem claim_c3 :
    (∀ (fetch : String → FetchResult) (broken skipped : List String) (minrev maxrev : Int)
        (cfg : List (String × List (String × String × String))) (tbl : Table),
      (run_batch fetch broken skipped minrev maxrev cfg).2 = Except.ok tbl →
      (tbl.map Prod.fst).Nodup)
    ∧ (∀ (fetch : String → FetchResult) (broken skipped : List String) (minrev maxrev : Int)
        (cat st id url text : String) (tbl : Table) (e1 e2 rec : Dict) (v : String),
      id ∉ skipped → fetch url = FetchResult.ok text →
      e1 = inject_fields (read_exports text) id st url cat broken →
      missing_key e1 = none →
      e2 = ensure_download e1 (default_download_url url) →
      compat_check minrev maxrev e2 = Except.ok true →
      tlookup tbl id = some rec →
      dget? rec "categories" = some v →
      process_contrib fetch broken skipped minrev maxrev cat (st, id, url) tbl
        = ([url], Except.ok (add_contrib tbl id e2 cat))
      ∧ (add_contrib tbl id e2 cat).map Prod.fst = tbl.map Prod.fst
      ∧ tlookup (add_contrib tbl id e2 cat) id = some (append_category rec cat)
      ∧ dget? (append_category rec cat) "categories" = some (v ++ "," ++ cat))
    ∧ (∀ tbl : Table, (write_all tbl).length = tbl.length) := by
  refine ⟨?_, ?_, ?_⟩
  · intro fetch broken skipped minrev maxrev cfg tbl h
    refine run_batch_from_nodup fetch broken skipped minrev maxrev cfg ([], Except.ok [])
      ?_ tbl h
    intro tbl0 h0
    cases h0
    simp
  · intro fetch broken skipped minrev maxrev cat st id url text tbl e1 e2 rec v
      h1 h2 he1 h3 he2 hcc htl hv
    have hmem : tmem tbl id = true := by
      unfold tmem
      rw [htl]
      rfl
    refine ⟨?_, ?_, ?_, ?_⟩
    · subst he1
      subst he2
      simp [process_contrib, h1, h2, h3, hcc]
    · unfold add_contrib
      rw [if_pos hmem, map_fst_update]
    · unfold add_contrib
      rw [if_pos hmem, tlookup_update_self, htl]
      rfl
    · rw [dget?_append_category, hv]
      rfl
  · intro tbl
    simp [write_all]

/-- Witness for C3: an id already accumulated under `Sound` is accepted a
second time under `Vision`; the table keeps one row for the id and its
`categories` string becomes `Sound,Vision`. -/
theorem claim_c3_witness :
    process_contrib (fun _ => FetchResult.ok "name=n\nauthors=a\nurl=u\nsentence=s\nversion=1")
        [] [] 228 0 "Vision" ("library", "043", "http://x/a.txt")
        [("043", [("categories", "Sound"), ("name", "n")])]
      = (["http://x/a.txt"], Except.ok
          (add_contrib [("043", [("categories", "Sound"), ("name", "n")])] "043"
            (ensure_download
              (inject_fields
                (read_exports "name=n\nauthors=a\nurl=u\nsentence=s\nversion=1")
                "043" "library" "http://x/a.txt" "Vision" [])
              (default_download_url "http://x/a.txt"))
            "Vision"))
    ∧ (add_contrib [("043", [("categories", "Sound"), ("name", "n")])] "043"
        (ensure_download
          (inject_fields (read_exports "name=n\nauthors=a\nurl=u\nsentence=s\nversion=1")
            "043" "library" "http://x/a.txt" "Vision" [])
          (default_download_url "http://x/a.txt"))
        "Vision").map Prod.fst
      = [("043", [("categories", "Sound"), ("name", "n")])].map Prod.fst
    ∧ tlookup (add_contrib [("043", [("categories", "Sound"), ("name", "n")])] "043"
        (ensure_download
          (inject_fields (read_exports "name=n\nauthors=a\nurl=u\nsentence=s\nversion=1")
            "043" "library" "http://x/a.txt" "Vision" [])
          (default_download_url "http://x/a.txt"))
        "Vision") "043"
      = some (append_category [("categories", "Sound"), ("name", "n")] "Vision")
    ∧ dget? (append_category [("categories", "Sound"), ("name", "n")] "Vision") "categories"
      = some ("Sound" ++ "," ++ "Vision") :=
  claim_c3.2.1 (fun _ => FetchResult.ok "name=n\nauthors=a\nurl=u\nsentence=s\nversion=1")
    [] [] 228 0 "Vision" "library" "043" "http://x/a.txt"
    "name=n\nauthors=a\nurl=u\nsentence=s\nversion=1"
    [("043", [("categories", "Sound"), ("name", "n")])] _ _
    [("categories", "Sound"), ("name", "n")] "Sound"
    (by decide) rfl rfl (by decide) rfl rfl rfl rfl


end BuildJson
